import Mathlib

/-!
Verification of the evp-ts parser-tree engine (src/mod.ts, final evolution:
the `parseContext`-based engine) against its natural-language specification.

The engine converts a flat key-to-string snapshot into a typed nested object.
We shallowly embed the node tree, the execution context (snapshot with
per-key used flags, accumulated log lines, the current structural key) and
the resolution algorithm.  JS exceptions are modelled with `Except`:
`Thrown.error` is a thrown `Error` object, `Thrown.nonError` a thrown
non-`Error` value (only user callbacks produce those).
-/

namespace EvpTs

/-- Dynamic values produced by conversion functions and object assembly
(the engine is generic over `T`; this closed universe covers the shapes the
library ever constructs: strings, booleans, `null`, `undefined` for
`optional()`, and plain objects). -/
inductive Value where
  | str (s : String)
  | boolean (b : Bool)
  | null
  | undef
  | obj (fields : List (String × Value))

/-- JS stringification as used by the template literals and the explicit
`null`/`undefined` checks in `Variable.parseContext` (mod.ts lines 551-560,
569-571). -/
def jsString : Value → String
  | .str s => s
  | .boolean true => "true"
  | .boolean false => "false"
  | .null => "null"
  | .undef => "undefined"
  | .obj _ => "[object Object]"

/-- Outcome of running a user conversion function (`Variable.parse` or a
`map` callback): a returned value, a thrown `Error` carrying a message, or a
thrown non-`Error` value (mod.ts lines 574-579 distinguish the last two via
`instanceof Error`). -/
inductive ConvResult where
  | ok (v : Value)
  | fail (msg : String)
  | nonError

/-- A line sent to the logging collaborator, tagged with the channel
(`ILogger.info` or `ILogger.error`). -/
inductive LogLine where
  | info (msg : String)
  | error (msg : String)
deriving Repr, DecidableEq

/-- A JS exception escaping the engine: either an `Error` (message) or a
non-`Error` value rethrown at mod.ts line 578. -/
inductive Thrown where
  | error (msg : String)
  | nonError
deriving Repr, DecidableEq

/-- `ParseResult<T>` from mod.ts lines 466-469; the `Error` in the `error`
arm is modelled by its message. -/
inductive ParseResult where
  | success (value : Value)
  | missing
  | error (msg : String)

/-- `State` from mod.ts lines 455-458: a snapshot entry with its used flag. -/
structure State where
  value : String
  used : Bool
deriving Repr, DecidableEq

/-- `Context` from mod.ts lines 460-464.  The logger collaborator is
modelled by the list of lines emitted so far (`logs`), in emission order. -/
structure Context where
  values : List (String × State)
  currentKey : Option String
  logs : List LogLine
deriving Repr, DecidableEq

/-- `ctx.values[k]`: first-match association lookup (JS records have unique
keys, so first-match agrees with record access). -/
def lookupState : List (String × State) → String → Option State
  | [], _ => none
  | (k', s) :: rest, k => if k' = k then some s else lookupState rest k

/-- `state.used = true` (mod.ts line 565): the snapshot map is shared by
reference, so setting the flag persists for the whole parse call. -/
def markUsed : List (String × State) → String → List (String × State)
  | [], _ => []
  | (k', s) :: rest, k =>
    if k' = k then (k', { s with used := true }) :: rest
    else (k', s) :: markUsed rest k

/-- `ctx.logger.info(msg)`. -/
def logInfo (ctx : Context) (msg : String) : Context :=
  { ctx with logs := ctx.logs ++ [LogLine.info msg] }

/-- `ctx.logger.error(msg)`. -/
def logError (ctx : Context) (msg : String) : Context :=
  { ctx with logs := ctx.logs ++ [LogLine.error msg] }

/-- `logMissingVariable` from logger.ts lines 21-23. -/
def logMissingVariable (ctx : Context) (key : String) : Context :=
  logError ctx (key ++ "=undefined ERROR: missing environment variable")

mutual
/-- The parser-tree node kinds of mod.ts: `Variable` subclasses (leaf with a
conversion function), `ObjectParser`, `UntaggedUnionParser` and
`TaggedUnionParser`.  Every node carries the `VariableLike` configuration it
actually reads: `envName` (`env()` override), and for leaves the secrecy
flag and default value; for unions the default is a variant name. -/
inductive Node where
  | leaf (envName : Option String) (isSecret : Bool)
      (defaultValue : Option Value) (conv : String → ConvResult)
  | objectNode (fields : Fields)
  | untagged (envName : Option String) (defaultVariant : Option String)
      (options : Fields)
  | tagged (tag : String) (envName : Option String)
      (defaultVariant : Option String) (options : Fields)

/-- An ordered `name → Node` record (`ParsersOf<T>`); `for (const key in
this.fields)` iterates it in insertion order. -/
inductive Fields where
  | nil
  | cons (name : String) (node : Node) (rest : Fields)
end

/-- The declared field names, in iteration order (`Object.keys`). -/
def Fields.names : Fields → List String
  | .nil => []
  | .cons name _ rest => name :: Fields.names rest

/-- Whether a union option record has an entry for `name`
(`this._options[value] !== undefined`). -/
def Fields.hasOption : Fields → String → Bool
  | .nil, _ => false
  | .cons name _ rest, v => if name = v then true else Fields.hasOption rest v

/-- `serialComma` from mod.ts lines 855-860 (one item: itself; two items:
joined by " or "; three or more: comma list with ", or" before the last;
the empty case follows the JS code falling through to the last branch). -/
def serialComma (items : List String) : String :=
  match items with
  | [x] => x
  | [x, y] => x ++ " or " ++ y
  | [] => ", or undefined"
  | xs => String.intercalate ", " xs.dropLast ++ ", or " ++
      (match xs.getLast? with | some l => l | none => "undefined")

/-- `result.type === success` (the filter predicate of `fromParseResults`
and the success test of the callers). -/
def isSuccess : ParseResult → Bool
  | .success _ => true
  | _ => false

/-- `fromParseResults` from mod.ts lines 693-716: collect the names of the
non-success entries; if any, one aggregate error naming them all, joined by
", "; otherwise the successes assembled into an object. -/
def fromParseResults (results : List (String × ParseResult)) : ParseResult :=
  let missing := (results.filter fun kv => !(isSuccess kv.2)).map Prod.fst
  if missing.length > 0 then
    .error ("Unable to fill the following fields: " ++
      String.intercalate ", " missing)
  else
    .success (.obj (results.filterMap fun kv =>
      match kv.2 with | .success v => some (kv.1, v) | _ => none))

/-- The object-spread merge `\x7b ...tag, ...result.value \x7d` at mod.ts
lines 805-813: the first operand's keys keep their position, later spreads
win on duplicate names, and fresh names of the second operand follow.  The
options of a union are object parsers in this library, so the spread of a
non-object variant value never arises in the claims; spreading a
non-object contributes no enumerable own string keys here. -/
def jsSpread (xs ys : List (String × Value)) : List (String × Value) :=
  (xs.map fun kv =>
    (kv.1, match (ys.find? fun kv2 => kv2.1 = kv.1) with
           | some kv2 => kv2.2
           | none => kv.2)) ++
  ys.filter fun kv2 => (xs.find? fun kv => kv.1 = kv2.1).isNone

/-- The tagged-union success value: the synthetic discriminator field merged
with the winning variant's value. -/
def mergeTagged (tag selected : String) (v : Value) : Value :=
  match v with
  | .obj fs => .obj (jsSpread [(tag, .str selected)] fs)
  | _ => .obj [(tag, .str selected)]

/-- The invalid-variant message built by both union nodes (mod.ts lines
746-748 and 792-794). -/
def invalidVariant (options : Fields) (v : String) : String :=
  "it must be " ++ serialComma (Fields.names options) ++ ", but got " ++ v

/-- What `UntaggedUnionParser.parseContext` does with the looked-up option
(mod.ts lines 744-752): delegate verbatim when found, otherwise log and
return the invalid-variant error. -/
def untaggedFinish (k v : String) (options : Fields) (ctx : Context)
    (found : Option (Except Thrown ParseResult × Context)) :
    Except Thrown ParseResult × Context :=
  match found with
  | some res => res
  | none =>
    (.ok (.error (invalidVariant options v)),
     logError ctx (k ++ "=" ++ v ++ " ERROR: " ++ invalidVariant options v))

/-- What `TaggedUnionParser.parseContext` does with the delegated result
(mod.ts lines 804-816): on success merge in the discriminator field,
otherwise pass the result through.  The `none` arm can only be reached when
the option map has no entry, which the caller has already excluded. -/
def taggedFinish (tag k v : String) (options : Fields) (ctx1 : Context)
    (found : Option (Except Thrown ParseResult × Context)) :
    Except Thrown ParseResult × Context :=
  match found with
  | some (.ok (.success w), ctx2) => (.ok (.success (mergeTagged tag v w)), ctx2)
  | some res => res
  | none =>
    (.ok (.error (invalidVariant options v)),
     logError ctx1 (k ++ "=" ++ v ++ " ERROR: " ++ invalidVariant options v))

mutual
/-- `parseContext` (mod.ts): dispatch on the node kind.
Leaf: lines 539-582.  Object: lines 645-652.  Untagged union: lines
732-753.  Tagged union: lines 780-817.  The result pairs the JS return
value (or exception) with the context as mutated so far. -/
def parseContext (n : Node) (ctx : Context) :
    Except Thrown ParseResult × Context :=
  match n with
  | .leaf envName isSecret defaultValue conv =>
    match envName.orElse (fun _ => ctx.currentKey) with
    | none => (.error (.error "Unable to determine the name of the variable"), ctx)
    | some k =>
      match lookupState ctx.values k with
      | none =>
        match defaultValue with
        | none => (.ok .missing, logMissingVariable ctx k)
        | some v =>
          let strValue := if isSecret then "<REDACTED>" else jsString v
          (.ok (.success v), logInfo ctx (k ++ "=" ++ strValue ++ " (default)"))
      | some st =>
        let ctx1 := { ctx with values := markUsed ctx.values k }
        match conv st.value with
        | .ok v =>
          if isSecret then
            (.ok (.success v), logInfo ctx1 (k ++ "=<REDACTED>"))
          else
            (.ok (.success v), logInfo ctx1 (k ++ "=" ++ jsString v))
        | .fail msg =>
          (.ok (.error msg),
           logError ctx1 (k ++ "=" ++ st.value ++ " ERROR: " ++ msg))
        | .nonError => (.error .nonError, ctx1)
  | .objectNode fields =>
    match runFields fields ctx with
    | (.error t, ctx1) => (.error t, { ctx1 with currentKey := ctx.currentKey })
    | (.ok results, ctx1) =>
      (.ok (fromParseResults results), { ctx1 with currentKey := ctx.currentKey })
  | .untagged envName defaultVariant options =>
    match envName.orElse (fun _ => ctx.currentKey) with
    | none => (.error (.error "Unable to determine the name of the variable"), ctx)
    | some k =>
      match (match lookupState ctx.values k with
             | some st => some st.value
             | none => defaultVariant) with
      | none => (.ok .missing, logMissingVariable ctx k)
      | some v => untaggedFinish k v options ctx (parseOptions options v ctx)
  | .tagged tag envName defaultVariant options =>
    match envName.orElse (fun _ => ctx.currentKey) with
    | none => (.error (.error "Unable to determine the name of the variable"), ctx)
    | some k =>
      match (match lookupState ctx.values k with
             | some st => some st.value
             | none => defaultVariant) with
      | none => (.ok .missing, logMissingVariable ctx k)
      | some v =>
        if Fields.hasOption options v then
          let isDefault := (lookupState ctx.values k).isNone
          let ctx1 := logInfo ctx
            (if isDefault then k ++ "=" ++ v ++ " (default)" else k ++ "=" ++ v)
          taggedFinish tag k v options ctx1 (parseOptions options v ctx1)
        else
          (.ok (.error (invalidVariant options v)),
           logError ctx (k ++ "=" ++ v ++ " ERROR: " ++ invalidVariant options v))

/-- The option lookup plus delegation `this._options[value].parseContext(ctx)`
of the union nodes; `none` when the selector names no option. -/
def parseOptions (options : Fields) (v : String) (ctx : Context) :
    Option (Except Thrown ParseResult × Context) :=
  match options with
  | .nil => none
  | .cons name node rest =>
    if name = v then some (parseContext node ctx)
    else parseOptions rest v ctx

/-- `ObjectParser.parseContext`'s field loop (mod.ts lines 646-650): resolve
every field in declared order with `currentKey` set to the field name,
collecting the per-field results; the snapshot mutations and log lines
thread through.  A JS exception aborts the loop. -/
def runFields (fields : Fields) (ctx : Context) :
    Except Thrown (List (String × ParseResult)) × Context :=
  match fields with
  | .nil => (.ok [], ctx)
  | .cons key node rest =>
    match parseContext node { ctx with currentKey := some key } with
    | (.error t, ctx1) => (.error t, ctx1)
    | (.ok r, ctx1) =>
      match runFields rest { ctx1 with currentKey := ctx.currentKey } with
      | (.error t, ctx2) => (.error t, ctx2)
      | (.ok results, ctx2) => (.ok ((key, r) :: results), ctx2)
end

/-- Building the fresh snapshot map of `ObjectParser.parse` (mod.ts lines
654-661): every provided entry starts unused. -/
def mkValues (input : List (String × String)) : List (String × State) :=
  input.map fun kv => (kv.1, { value := kv.2, used := false })

/-- What a `parse` call does for the caller: return the parsed value, or
throw (an `Error` with a message, or a non-`Error` value). -/
inductive ParseOutcome where
  | value (v : Value)
  | thrownError (msg : String)
  | thrownNonError

/-- `ObjectParser.parse` (mod.ts lines 653-673): build a fresh context, run
`parseContext`, throw `final.error` on an error result, throw
`Error('missing required variables')` on a missing result, return the value
otherwise.  The second component is the full log transcript. -/
def parse (fields : Fields) (input : List (String × String)) :
    ParseOutcome × List LogLine :=
  match parseContext (.objectNode fields)
      { values := mkValues input, currentKey := none, logs := [] } with
  | (.error (.error m), ctx) => (.thrownError m, ctx.logs)
  | (.error .nonError, ctx) => (.thrownNonError, ctx.logs)
  | (.ok (.error m), ctx) => (.thrownError m, ctx.logs)
  | (.ok .missing, ctx) => (.thrownError "missing required variables", ctx.logs)
  | (.ok (.success v), ctx) => (.value v, ctx.logs)

/-- The `StringVariable` conversion (mod.ts lines 894-901): identity. -/
def stringConv (value : String) : ConvResult := .ok (.str value)

/-- ASCII case folding of one character, as `String.prototype.toLowerCase`
acts on ASCII (the keywords compared against are all ASCII, and no
non-ASCII character lower-cases onto their letters). -/
def jsCharToLower (c : Char) : Char :=
  if 65 ≤ c.toNat ∧ c.toNat ≤ 90 then Char.ofNat (c.toNat + 32) else c

/-- `value.toLowerCase()` restricted to ASCII folding. -/
def jsToLower (s : String) : String :=
  String.mk (s.data.map jsCharToLower)

/-- The `BooleanVariable` conversion (mod.ts lines 903-918). -/
def booleanConv (value : String) : ConvResult :=
  if ["true", "yes", "on", "1"].contains (jsToLower value) then .ok (.boolean true)
  else if ["false", "no", "off", "0"].contains (jsToLower value) then .ok (.boolean false)
  else .fail "invalid boolean"


/-- The part of the snapshot a parse call must not change: its keys and raw
string values (only the used flags may flip). -/
def valuesShape (values : List (String × State)) : List (String × String) :=
  values.map fun kv => (kv.1, kv.2.value)

theorem valuesShape_markUsed (values : List (String × State)) (k : String) :
    valuesShape (markUsed values k) = valuesShape values := by
  induction values with
  | nil => rfl
  | cons kv rest ih =>
    obtain ⟨k1, s1⟩ := kv
    by_cases h : k1 = k <;> simp [markUsed, valuesShape, h] at ih ⊢ <;>
      simpa [valuesShape] using ih

theorem valuesShape_logInfo (ctx : Context) (msg : String) :
    (logInfo ctx msg).values = ctx.values := rfl

theorem valuesShape_logError (ctx : Context) (msg : String) :
    (logError ctx msg).values = ctx.values := rfl

theorem shape_untaggedFinish (k v : String) (options : Fields) (ctx : Context)
    (found : Option (Except Thrown ParseResult × Context))
    (h : ∀ r, found = some r → valuesShape r.2.values = valuesShape ctx.values) :
    valuesShape (untaggedFinish k v options ctx found).2.values =
      valuesShape ctx.values := by
  cases found with
  | none => simp [untaggedFinish, logError]
  | some r => simpa [untaggedFinish] using h r rfl

theorem shape_taggedFinish (tag k v : String) (options : Fields) (ctx1 : Context)
    (found : Option (Except Thrown ParseResult × Context))
    (h : ∀ r, found = some r → valuesShape r.2.values = valuesShape ctx1.values) :
    valuesShape (taggedFinish tag k v options ctx1 found).2.values =
      valuesShape ctx1.values := by
  cases found with
  | none => simp [taggedFinish, logError]
  | some r =>
    have hr := h r rfl
    obtain ⟨res, ctx2⟩ := r
    rcases res with t | pr
    · simpa [taggedFinish] using hr
    · rcases pr with w | _ | m <;> simpa [taggedFinish] using hr

mutual
theorem shape_parseContext (n : Node) (ctx : Context) :
    valuesShape (parseContext n ctx).2.values = valuesShape ctx.values := by
  cases n with
  | leaf e s d c =>
    rw [parseContext]
    repeat' split
    all_goals
      simp [logMissingVariable, logError, logInfo, valuesShape_markUsed]
  | objectNode fields =>
    rw [parseContext]
    have h := shape_runFields fields ctx
    rcases hr : runFields fields ctx with ⟨res, ctx1⟩
    rcases res with t | results <;> simpa [hr] using h
  | untagged e dv options =>
    rw [parseContext]
    repeat' split
    all_goals
      first
        | rfl
        | (apply shape_untaggedFinish
           intro r hr
           have h := shape_parseOptions _ _ _ _ hr
           simpa using h)
        | (simp [logMissingVariable, logError, logInfo]; done)
  | tagged tag e dv options =>
    rw [parseContext]
    repeat' split
    all_goals
      first
        | rfl
        | (refine shape_taggedFinish _ _ _ _ _ _ ?_
           intro r hr
           have h := shape_parseOptions _ _ _ _ hr
           simpa using h)
        | (simp [logMissingVariable, logError, logInfo]; done)

theorem shape_parseOptions (options : Fields) (v : String) (ctx : Context) :
    ∀ res, parseOptions options v ctx = some res →
      valuesShape res.2.values = valuesShape ctx.values := by
  cases options with
  | nil => intro res h; simp [parseOptions] at h
  | cons name node rest =>
    intro res h
    rw [parseOptions] at h
    by_cases hn : name = v
    · simp only [hn, if_true] at h
      injection h with h
      rw [← h]
      exact shape_parseContext node ctx
    · simp only [hn, if_false] at h
      exact shape_parseOptions rest v ctx res h

theorem shape_runFields (fields : Fields) (ctx : Context) :
    valuesShape (runFields fields ctx).2.values = valuesShape ctx.values := by
  cases fields with
  | nil => rfl
  | cons key node rest =>
    rw [runFields]
    have h1 := shape_parseContext node { ctx with currentKey := some key }
    rcases hp : parseContext node { ctx with currentKey := some key } with ⟨r, ctx1⟩
    rw [hp] at h1
    rcases r with t | r
    · simpa using h1
    · simp only
      have h2 := shape_runFields rest { ctx1 with currentKey := ctx.currentKey }
      rcases hr : runFields rest { ctx1 with currentKey := ctx.currentKey } with ⟨res2, ctx2⟩
      rw [hr] at h2
      rcases res2 with t | results <;> exact h2.trans h1
end

theorem logs_untaggedFinish (k v : String) (options : Fields) (ctx : Context)
    (found : Option (Except Thrown ParseResult × Context))
    (h : ∀ r, found = some r → ∃ t, r.2.logs = ctx.logs ++ t) :
    ∃ t, (untaggedFinish k v options ctx found).2.logs = ctx.logs ++ t := by
  cases found with
  | none => exact ⟨_, rfl⟩
  | some r => simpa [untaggedFinish] using h r rfl

theorem logs_taggedFinish (tag k v : String) (options : Fields) (ctx1 : Context)
    (found : Option (Except Thrown ParseResult × Context))
    (h : ∀ r, found = some r → ∃ t, r.2.logs = ctx1.logs ++ t) :
    ∃ t, (taggedFinish tag k v options ctx1 found).2.logs = ctx1.logs ++ t := by
  cases found with
  | none => exact ⟨_, rfl⟩
  | some r =>
    have hr := h r rfl
    obtain ⟨res, ctx2⟩ := r
    rcases res with t | pr
    · simpa [taggedFinish] using hr
    · rcases pr with w | _ | m <;> simpa [taggedFinish] using hr

theorem logs_taggedArm (tag k v : String) (options : Fields) (ctx : Context)
    (msg : String)
    (h : ∀ r, parseOptions options v (logInfo ctx msg) = some r →
      ∃ t, r.2.logs = (logInfo ctx msg).logs ++ t) :
    ∃ t, (taggedFinish tag k v options (logInfo ctx msg)
        (parseOptions options v (logInfo ctx msg))).2.logs = ctx.logs ++ t := by
  obtain ⟨t, ht⟩ := logs_taggedFinish tag k v options (logInfo ctx msg) _ h
  refine ⟨LogLine.info msg :: t, ?_⟩
  rw [ht]
  simp [logInfo]

mutual
theorem logs_parseContext (n : Node) (ctx : Context) :
    ∃ t, (parseContext n ctx).2.logs = ctx.logs ++ t := by
  cases n with
  | leaf e s d c =>
    rw [parseContext]
    repeat' split
    all_goals
      first
        | exact ⟨_, rfl⟩
        | exact ⟨[], List.append_nil _ |>.symm⟩
  | objectNode fields =>
    rw [parseContext]
    obtain ⟨t, ht⟩ := logs_runFields fields ctx
    rcases hr : runFields fields ctx with ⟨res, ctx1⟩
    rw [hr] at ht
    rcases res with t2 | results <;> exact ⟨t, ht⟩
  | untagged e dv options =>
    rw [parseContext]
    repeat' split
    all_goals
      first
        | exact ⟨_, rfl⟩
        | (exact logs_untaggedFinish _ _ _ _ _ (logs_parseOptions _ _ _))
        | exact ⟨[], List.append_nil _ |>.symm⟩
  | tagged tag e dv options =>
    rw [parseContext]
    repeat' split
    all_goals
      first
        | exact ⟨_, rfl⟩
        | (exact logs_taggedArm _ _ _ _ _ _ (logs_parseOptions _ _ _))
        | exact ⟨[], List.append_nil _ |>.symm⟩

theorem logs_parseOptions (options : Fields) (v : String) (ctx : Context) :
    ∀ res, parseOptions options v ctx = some res →
      ∃ t, res.2.logs = ctx.logs ++ t := by
  cases options with
  | nil => intro res h; simp [parseOptions] at h
  | cons name node rest =>
    intro res h
    rw [parseOptions] at h
    by_cases hn : name = v
    · simp only [hn, if_true] at h
      injection h with h
      rw [← h]
      exact logs_parseContext node ctx
    · simp only [hn, if_false] at h
      exact logs_parseOptions rest v ctx res h

theorem logs_runFields (fields : Fields) (ctx : Context) :
    ∃ t, (runFields fields ctx).2.logs = ctx.logs ++ t := by
  cases fields with
  | nil => exact ⟨[], List.append_nil _ |>.symm⟩
  | cons key node rest =>
    rw [runFields]
    obtain ⟨t1, h1⟩ := logs_parseContext node { ctx with currentKey := some key }
    rcases hp : parseContext node { ctx with currentKey := some key } with ⟨r, ctx1⟩
    rw [hp] at h1
    rcases r with t | r
    · exact ⟨t1, h1⟩
    · simp only
      obtain ⟨t2, h2⟩ := logs_runFields rest { ctx1 with currentKey := ctx.currentKey }
      rcases hr : runFields rest { ctx1 with currentKey := ctx.currentKey } with ⟨res2, ctx2⟩
      rw [hr] at h2
      have hcomp : ctx2.logs = ctx.logs ++ (t1 ++ t2) := by
        simp only at h2
        rw [h2, h1]
        simp
      rcases res2 with t | results <;> exact ⟨t1 ++ t2, hcomp⟩
end

theorem noErr_untaggedFinish (k v : String) (options : Fields) (ctx : Context)
    (found : Option (Except Thrown ParseResult × Context)) (m : String)
    (h : ∀ r, found = some r → r.1 ≠ Except.error (Thrown.error m)) :
    (untaggedFinish k v options ctx found).1 ≠ Except.error (Thrown.error m) := by
  cases found with
  | none => simp [untaggedFinish]
  | some r => simpa [untaggedFinish] using h r rfl

theorem noErr_taggedFinish (tag k v : String) (options : Fields) (ctx1 : Context)
    (found : Option (Except Thrown ParseResult × Context)) (m : String)
    (h : ∀ r, found = some r → r.1 ≠ Except.error (Thrown.error m)) :
    (taggedFinish tag k v options ctx1 found).1 ≠ Except.error (Thrown.error m) := by
  cases found with
  | none => simp [taggedFinish]
  | some r =>
    have hr := h r rfl
    obtain ⟨res, ctx2⟩ := r
    rcases res with t | pr
    · simpa [taggedFinish] using hr
    · rcases pr with w | _ | mm <;> simp [taggedFinish]

mutual
theorem noErr_parseContext (n : Node) (ctx : Context)
    (h : ctx.currentKey.isSome = true ∨ ∃ fs, n = Node.objectNode fs)
    (m : String) :
    (parseContext n ctx).1 ≠ Except.error (Thrown.error m) := by
  cases n with
  | leaf e s d c =>
    rw [parseContext]
    repeat' split
    all_goals try simp
    rename_i heq
    rcases e with _ | a
    · rcases h with h | ⟨fs, hfs⟩
      · simp [Option.orElse] at heq
        rw [heq] at h
        simp at h
      · exact absurd hfs (by simp)
    · simp [Option.orElse] at heq
  | objectNode fields =>
    rw [parseContext]
    have hrf := noErr_runFields fields ctx m
    rcases hr : runFields fields ctx with ⟨res, ctx1⟩
    rw [hr] at hrf
    rcases res with t | results
    · simpa using hrf
    · simp
  | untagged e dv options =>
    have hk : ctx.currentKey.isSome = true := by
      rcases h with h | ⟨fs, hfs⟩
      · exact h
      · exact absurd hfs (by simp)
    rw [parseContext]
    repeat' split
    all_goals try simp
    · rename_i heq
      rcases e with _ | a
      · simp [Option.orElse] at heq
        rw [heq] at hk
        simp at hk
      · simp [Option.orElse] at heq
    · exact noErr_untaggedFinish _ _ _ _ _ _
        (fun r hr => noErr_parseOptions _ _ _ hk r hr m)
  | tagged tag e dv options =>
    have hk : ctx.currentKey.isSome = true := by
      rcases h with h | ⟨fs, hfs⟩
      · exact h
      · exact absurd hfs (by simp)
    rw [parseContext]
    repeat' split
    all_goals try simp
    · rename_i heq
      rcases e with _ | a
      · simp [Option.orElse] at heq
        rw [heq] at hk
        simp at hk
      · simp [Option.orElse] at heq
    · exact noErr_taggedFinish _ _ _ _ _ _ _
        (fun r hr => noErr_parseOptions _ _ _ (by simpa [logInfo] using hk) r hr m)

theorem noErr_parseOptions (options : Fields) (v : String) (ctx : Context)
    (hk : ctx.currentKey.isSome = true) :
    ∀ res, parseOptions options v ctx = some res →
      ∀ m, res.1 ≠ Except.error (Thrown.error m) := by
  cases options with
  | nil => intro res h; simp [parseOptions] at h
  | cons name node rest =>
    intro res h m
    rw [parseOptions] at h
    by_cases hn : name = v
    · simp only [hn, if_true] at h
      injection h with h
      rw [← h]
      exact noErr_parseContext node ctx (Or.inl hk) m
    · simp only [hn, if_false] at h
      exact noErr_parseOptions rest v ctx hk res h m

theorem noErr_runFields (fields : Fields) (ctx : Context) (m : String) :
    (runFields fields ctx).1 ≠ Except.error (Thrown.error m) := by
  cases fields with
  | nil => simp [runFields]
  | cons key node rest =>
    rw [runFields]
    have h1 := noErr_parseContext node { ctx with currentKey := some key }
      (Or.inl (by simp)) m
    rcases hp : parseContext node { ctx with currentKey := some key } with ⟨r, ctx1⟩
    rw [hp] at h1
    rcases r with t | r
    · simpa using h1
    · simp only
      have h2 := noErr_runFields rest { ctx1 with currentKey := ctx.currentKey } m
      rcases hr : runFields rest { ctx1 with currentKey := ctx.currentKey } with ⟨res2, ctx2⟩
      rw [hr] at h2
      rcases res2 with t | results
      · simpa using h2
      · simp
end

theorem fromParseResults_ne_missing (results : List (String × ParseResult)) :
    fromParseResults results ≠ ParseResult.missing := by
  rw [fromParseResults]
  split <;> simp

theorem fromParseResults_all_success (results : List (String × ParseResult))
    (h : ∀ kv ∈ results, isSuccess kv.2 = true) :
    fromParseResults results =
      ParseResult.success (.obj (results.filterMap fun kv =>
        match kv.2 with | .success v => some (kv.1, v) | _ => none)) := by
  rw [fromParseResults]
  have hf : results.filter (fun kv => !(isSuccess kv.2)) = [] := by
    simp only [List.filter_eq_nil]
    intro kv hkv
    simp [h kv hkv]
  simp [hf]

theorem fromParseResults_failing (results : List (String × ParseResult))
    (kv0 : String × ParseResult) (h0 : kv0 ∈ results)
    (hf0 : isSuccess kv0.2 = false) :
    fromParseResults results =
      ParseResult.error ("Unable to fill the following fields: " ++
        String.intercalate ", "
          ((results.filter fun kv => !(isSuccess kv.2)).map Prod.fst)) := by
  rw [fromParseResults]
  have hmem : kv0 ∈ results.filter (fun kv => !(isSuccess kv.2)) := by
    simp [List.mem_filter, h0, hf0]
  have hlen : 0 < ((results.filter fun kv => !(isSuccess kv.2)).map Prod.fst).length := by
    simp only [List.length_map]
    exact List.length_pos.mpr (List.ne_nil_of_mem hmem)
  simp only [hlen, if_pos]

theorem runFields_names (fields : Fields) :
    ∀ (ctx : Context) (results : List (String × ParseResult)) (ctx1 : Context),
      runFields fields ctx = (Except.ok results, ctx1) →
      results.map Prod.fst = Fields.names fields := by
  cases fields with
  | nil =>
    intro ctx results ctx1 h
    rw [runFields] at h
    injection h with h1 h2
    injection h1 with h1
    rw [← h1]
    rfl
  | cons key node rest =>
    intro ctx results ctx1 h
    rw [runFields] at h
    rcases hp : parseContext node { ctx with currentKey := some key } with ⟨r, ctxa⟩
    rw [hp] at h
    rcases r with t | r
    · simp at h
    · simp only at h
      rcases hr : runFields rest { ctxa with currentKey := ctx.currentKey } with ⟨res2, ctxb⟩
      rw [hr] at h
      rcases res2 with t | results2
      · simp at h
      · simp only at h
        injection h with h1 h2
        injection h1 with h1
        rw [← h1]
        simp only [List.map_cons, Fields.names]
        rw [runFields_names rest _ _ _ hr]

/-- What a `safeParse` call gives the caller: the Result value, or a
propagated JS exception. -/
inductive SafeOutcome where
  | returned (r : ParseResult)
  | thrownError (msg : String)
  | thrownNonError

/-- Modelled from the spec: `safeParse` is documented in the README and in
spec sections 4.4 and 7, but its implementation is not among the source
files.  Per the spec it runs the same resolution as `parse` and returns the
Result value instead of throwing for domain failures; genuine JS exceptions
still propagate. -/
def safeParse (fields : Fields) (input : List (String × String)) :
    SafeOutcome × List LogLine :=
  match parseContext (.objectNode fields)
      { values := mkValues input, currentKey := none, logs := [] } with
  | (.ok r, ctx) => (.returned r, ctx.logs)
  | (.error (.error m), ctx) => (.thrownError m, ctx.logs)
  | (.error .nonError, ctx) => (.thrownNonError, ctx.logs)

/-- `key.startsWith(assumedPrefix)`, decided on the character lists. -/
def jsStartsWith (p k : String) : Bool :=
  p.data.isPrefixOf k.data

/-- Modelled from the spec: unused-variable detection (spec sections 4.4 and
6; `assumePrefix` and `rejectUnused` appear only in the README and spec, not
in the source files).  After a full resolve, the snapshot keys that match a
configured assumed prefix and were never marked used by any leaf. -/
def unusedKeys (prefixes : List String) (values : List (String × State)) :
    List String :=
  (values.filter fun kv =>
    !kv.2.used && prefixes.any fun p => jsStartsWith p kv.1).map Prod.fst

/-- Modelled from the spec: `parse` under `assumePrefix(...)` plus
`rejectUnused()` — an otherwise-successful parse becomes a failure naming
the unused matching keys; other outcomes are those of `parse`. -/
def parseRejectUnused (fields : Fields) (prefixes : List String)
    (input : List (String × String)) : ParseOutcome :=
  match parseContext (.objectNode fields)
      { values := mkValues input, currentKey := none, logs := [] } with
  | (.error (.error m), _) => .thrownError m
  | (.error .nonError, _) => .thrownNonError
  | (.ok (.error m), _) => .thrownError m
  | (.ok .missing, _) => .thrownError "missing required variables"
  | (.ok (.success v), ctx) =>
    match unusedKeys prefixes ctx.values with
    | [] => .value v
    | unused =>
      .thrownError ("Unused variables: " ++ String.intercalate ", " unused)

/-- Claim C1: Object Node combination succeeds only if every per-field
result is a success; otherwise it returns a single aggregate error whose
message enumerates every failing field name in the field map's iteration
order, and every sibling field is still resolved (the per-field result list
covers every declared field, in declared order, whatever the results are). -/
theorem spec_C1 (fields : Fields) (ctx : Context)
    (results : List (String × ParseResult)) (ctx1 : Context)
    (h : runFields fields ctx = (Except.ok results, ctx1)) :
    results.map Prod.fst = Fields.names fields
    ∧ parseContext (.objectNode fields) ctx =
        (Except.ok (fromParseResults results),
         { ctx1 with currentKey := ctx.currentKey })
    ∧ ((∀ kv ∈ results, isSuccess kv.2 = true) →
        ∃ v, fromParseResults results = ParseResult.success v)
    ∧ (∀ kv0 ∈ results, isSuccess kv0.2 = false →
        fromParseResults results = ParseResult.error
          ("Unable to fill the following fields: " ++ String.intercalate ", "
            ((results.filter fun kv => !(isSuccess kv.2)).map Prod.fst))) := by
  refine ⟨runFields_names fields ctx results ctx1 h, ?_, ?_, ?_⟩
  · rw [parseContext, h]
  · intro hall
    exact ⟨_, fromParseResults_all_success results hall⟩
  · intro kv0 h0 hf0
    exact fromParseResults_failing results kv0 h0 hf0

/-- Witness for C1 at a concrete schema with two missing fields: the
aggregate error names both fields, in declared order. -/
theorem spec_C1_witness :
    fromParseResults [("A", ParseResult.missing), ("B", ParseResult.missing)] =
      ParseResult.error "Unable to fill the following fields: A, B" := by
  have h := spec_C1
    (Fields.cons "A" (Node.leaf none false none stringConv)
      (Fields.cons "B" (Node.leaf none false none stringConv) Fields.nil))
    { values := [], currentKey := none, logs := [] }
    [("A", ParseResult.missing), ("B", ParseResult.missing)]
    { values := [], currentKey := none,
      logs := [LogLine.error "A=undefined ERROR: missing environment variable",
               LogLine.error "B=undefined ERROR: missing environment variable"] }
    rfl
  exact h.2.2.2 ("A", ParseResult.missing) (by simp) rfl

/-- Claim C10: `ObjectParser.parseContext` returns a success or an error (or
propagates a JS exception), never a missing result, so the
missing-required-variables throw branch of `ObjectParser.parse` is
unreachable. -/
theorem spec_C10 (fields : Fields) (ctx : Context) :
    (∃ v, (parseContext (Node.objectNode fields) ctx).1 =
        Except.ok (ParseResult.success v)) ∨
    (∃ m, (parseContext (Node.objectNode fields) ctx).1 =
        Except.ok (ParseResult.error m)) ∨
    (∃ t, (parseContext (Node.objectNode fields) ctx).1 = Except.error t) := by
  rw [parseContext]
  rcases hr : runFields fields ctx with ⟨res, ctx1⟩
  rcases res with t | results
  · right; right; exact ⟨t, rfl⟩
  · rcases hfr : fromParseResults results with v | _ | m
    · left; exact ⟨v, by simp [hfr]⟩
    · exact absurd hfr (fromParseResults_ne_missing results)
    · right; left; exact ⟨m, by simp [hfr]⟩

/-- Counterexample to C2 as stated: a secret leaf with a configured default
logs the redaction marker, not the stringified default, so the claimed
log line `<key>=<stringified-default> (default)` is not the one emitted. -/
theorem spec_C2_cex :
    (parseContext (Node.leaf none true (some (Value.str "hunter2")) stringConv)
      { values := [], currentKey := some "K", logs := [] }).2.logs =
      [LogLine.info "K=<REDACTED> (default)"]
    ∧ "K=<REDACTED> (default)" ≠ "K=hunter2 (default)" := by
  exact ⟨rfl, by decide⟩

/-- Full case analysis of `Variable.parseContext` (mod.ts lines 539-582),
shared by the leaf-level claims. -/
theorem variable_parseContext_cases (e : Option String) (secret : Bool) (dv : Option Value)
    (conv : String → ConvResult) (ctx : Context) (k : String)
    (he : e.orElse (fun _ => ctx.currentKey) = some k) :
    (dv = none → lookupState ctx.values k = none →
      parseContext (.leaf e secret dv conv) ctx =
        (Except.ok ParseResult.missing,
         { ctx with logs := ctx.logs ++
            [LogLine.error (k ++ "=undefined ERROR: missing environment variable")] }))
    ∧ (∀ v, dv = some v → lookupState ctx.values k = none →
      parseContext (.leaf e secret dv conv) ctx =
        (Except.ok (ParseResult.success v),
         { ctx with logs := ctx.logs ++
            [LogLine.info (k ++ "=" ++
              (if secret then "<REDACTED>" else jsString v) ++ " (default)")] }))
    ∧ (∀ st v, lookupState ctx.values k = some st → conv st.value = ConvResult.ok v →
      parseContext (.leaf e secret dv conv) ctx =
        (Except.ok (ParseResult.success v),
         { ctx with
           values := markUsed ctx.values k,
           logs := ctx.logs ++
            [LogLine.info (k ++ "=" ++
              (if secret then "<REDACTED>" else jsString v))] }))
    ∧ (∀ st m, lookupState ctx.values k = some st → conv st.value = ConvResult.fail m →
      parseContext (.leaf e secret dv conv) ctx =
        (Except.ok (ParseResult.error m),
         { ctx with
           values := markUsed ctx.values k,
           logs := ctx.logs ++
            [LogLine.error (k ++ "=" ++ st.value ++ " ERROR: " ++ m)] })) := by
  refine ⟨?_, ?_, ?_, ?_⟩
  · intro hd hl
    rw [parseContext, he]
    subst hd
    simp [hl, logMissingVariable, logError]
  · intro v hd hl
    rw [parseContext, he]
    subst hd
    by_cases hs : secret <;> simp [hl, hs, logInfo]
  · intro st v hl hc
    rw [parseContext, he]
    by_cases hs : secret <;> simp [hl, hc, hs, logInfo, String.append_assoc]
  · intro st m hl hc
    rw [parseContext, he]
    simp [hl, hc, logError]

/-- Claim C2 (amended): the resolved key is the explicit env override, else
the structural field name; absent key with no default gives a missing
result and the missing-variable error line; absent key with a default gives
success with the default and the `<key>=<stringified-default> (default)`
line, where a secret leaf logs `<REDACTED>` in place of the stringified
default; a present key is marked used and converted, success logging the
converted value (`<REDACTED>` when secret), conversion failure giving an
error result and the `<key>=<raw> ERROR: <message>` line. -/
theorem spec_C2 (e : Option String) (secret : Bool) (dv : Option Value)
    (conv : String → ConvResult) (ctx : Context) (k : String)
    (he : e.orElse (fun _ => ctx.currentKey) = some k) :
    (dv = none → lookupState ctx.values k = none →
      parseContext (.leaf e secret dv conv) ctx =
        (Except.ok ParseResult.missing,
         { ctx with logs := ctx.logs ++
            [LogLine.error (k ++ "=undefined ERROR: missing environment variable")] }))
    ∧ (∀ v, dv = some v → lookupState ctx.values k = none →
      parseContext (.leaf e secret dv conv) ctx =
        (Except.ok (ParseResult.success v),
         { ctx with logs := ctx.logs ++
            [LogLine.info (k ++ "=" ++
              (if secret then "<REDACTED>" else jsString v) ++ " (default)")] }))
    ∧ (∀ st v, lookupState ctx.values k = some st → conv st.value = ConvResult.ok v →
      parseContext (.leaf e secret dv conv) ctx =
        (Except.ok (ParseResult.success v),
         { ctx with
           values := markUsed ctx.values k,
           logs := ctx.logs ++
            [LogLine.info (k ++ "=" ++
              (if secret then "<REDACTED>" else jsString v))] }))
    ∧ (∀ st m, lookupState ctx.values k = some st → conv st.value = ConvResult.fail m →
      parseContext (.leaf e secret dv conv) ctx =
        (Except.ok (ParseResult.error m),
         { ctx with
           values := markUsed ctx.values k,
           logs := ctx.logs ++
            [LogLine.error (k ++ "=" ++ st.value ++ " ERROR: " ++ m)] })) :=
  variable_parseContext_cases e secret dv conv ctx k he

/-- Witness for the amended C2 at a concrete present-value resolution:
the key is marked used and the converted value is logged. -/
theorem spec_C2_witness :
    parseContext (Node.leaf none false none stringConv)
      { values := [("FOO", { value := "bar", used := false })],
        currentKey := some "FOO", logs := [] } =
      (Except.ok (ParseResult.success (Value.str "bar")),
       { values := [("FOO", { value := "bar", used := true })],
         currentKey := some "FOO", logs := [LogLine.info "FOO=bar"] }) := by
  have h := (spec_C2 none false none stringConv
    { values := [("FOO", { value := "bar", used := false })],
      currentKey := some "FOO", logs := [] } "FOO" rfl).2.2.1
    { value := "bar", used := false } (Value.str "bar") rfl rfl
  simpa using h

/-- Counterexample to C3 as stated: on a conversion failure, the error log
line of a secret leaf does contain the raw input string (shown by the
explicit decomposition around "maybe"). -/
theorem spec_C3_cex :
    (parseContext (Node.leaf none true none booleanConv)
      { values := [("K", { value := "maybe", used := false })],
        currentKey := some "K", logs := [] }).2.logs =
      [LogLine.error ("K=" ++ "maybe" ++ " ERROR: invalid boolean")] := by
  exact rfl

/-- Claim C3 (amended): for a secret leaf, the log line of a successful
present-value resolution is exactly `<key>=<REDACTED>` and the log line of
a default-path resolution is exactly `<key>=<REDACTED> (default)` — both
independent of the raw input and of the default value — while a
conversion-failure line does contain the raw input. -/
theorem spec_C3 (e : Option String) (dv : Option Value)
    (conv : String → ConvResult) (ctx : Context) (k : String)
    (he : e.orElse (fun _ => ctx.currentKey) = some k) :
    (∀ st v, lookupState ctx.values k = some st → conv st.value = ConvResult.ok v →
      (parseContext (.leaf e true dv conv) ctx).2.logs =
        ctx.logs ++ [LogLine.info (k ++ "=<REDACTED>")])
    ∧ (∀ v, dv = some v → lookupState ctx.values k = none →
      (parseContext (.leaf e true dv conv) ctx).2.logs =
        ctx.logs ++ [LogLine.info (k ++ "=<REDACTED> (default)")]) := by
  constructor
  · intro st v hl hc
    have h := (variable_parseContext_cases e true dv conv ctx k he).2.2.1 st v hl hc
    rw [h]
    simp [String.append_assoc]
  · intro v hd hl
    have h := (variable_parseContext_cases e true dv conv ctx k he).2.1 v hd hl
    rw [h]
    simp [String.append_assoc]

/-- Witness for the amended C3: a concrete secret leaf resolving a present
value logs exactly the redaction marker. -/
theorem spec_C3_witness :
    (parseContext (Node.leaf none true none stringConv)
      { values := [("K", { value := "hunter2", used := false })],
        currentKey := some "K", logs := [] }).2.logs =
      [LogLine.info "K=<REDACTED>"] := by
  have h := (spec_C3 none none stringConv
    { values := [("K", { value := "hunter2", used := false })],
      currentKey := some "K", logs := [] } "K" rfl).1
    { value := "hunter2", used := false } (Value.str "hunter2") rfl rfl
  simpa using h

/-- The tagged union of claim C4: options mysql (field DATABASE) and sqlite
(field PATH), discriminator "kind", mounted under the structural key
SELECTOR. -/
def c4Union : Node :=
  Node.tagged "kind" none none
    (Fields.cons "mysql"
      (.objectNode (Fields.cons "DATABASE" (.leaf none false none stringConv) .nil))
    (Fields.cons "sqlite"
      (.objectNode (Fields.cons "PATH" (.leaf none false none stringConv) .nil))
    .nil))

/-- Counterexample to C4 as stated: with two options the invalid-variant
message joins them with " or " and no comma, so the claimed message
`it must be mysql, or sqlite, but got postgres` is not the one produced. -/
theorem spec_C4_cex :
    (parseContext c4Union
      { values := mkValues [("SELECTOR", "postgres")],
        currentKey := some "SELECTOR", logs := [] }).1 =
      Except.ok (ParseResult.error "it must be mysql or sqlite, but got postgres")
    ∧ "it must be mysql or sqlite, but got postgres" ≠
      "it must be mysql, or sqlite, but got postgres" := by
  exact ⟨rfl, by decide⟩

/-- Claim C4 (amended): the snapshot SELECTOR=sqlite, PATH=/db yields the
flattened object with the synthetic discriminator field,
kind=sqlite and PATH=/db; the snapshot SELECTOR=postgres yields an
invalid-variant error reading `it must be mysql or sqlite, but got
postgres` (the two valid options joined by " or "). -/
theorem spec_C4 :
    parseContext c4Union
      { values := mkValues [("SELECTOR", "sqlite"), ("PATH", "/db")],
        currentKey := some "SELECTOR", logs := [] } =
      (Except.ok (ParseResult.success
        (Value.obj [("kind", Value.str "sqlite"), ("PATH", Value.str "/db")])),
       { values := [("SELECTOR", { value := "sqlite", used := false }),
                    ("PATH", { value := "/db", used := true })],
         currentKey := some "SELECTOR",
         logs := [LogLine.info "SELECTOR=sqlite", LogLine.info "PATH=/db"] })
    ∧ parseContext c4Union
      { values := mkValues [("SELECTOR", "postgres")],
        currentKey := some "SELECTOR", logs := [] } =
      (Except.ok (ParseResult.error "it must be mysql or sqlite, but got postgres"),
       { values := [("SELECTOR", { value := "postgres", used := false })],
         currentKey := some "SELECTOR",
         logs := [LogLine.error
           "SELECTOR=postgres ERROR: it must be mysql or sqlite, but got postgres"] }) := by
  exact ⟨rfl, rfl⟩

/-- Claim C5: an untagged union with a configured default variant resolving
against an empty snapshot delegates to that variant verbatim — in
particular, when the variant resolves successfully the union succeeds with
exactly the variant value, no discriminator merged in — and with no
default variant an empty snapshot yields a missing result plus the
missing-variable error line. -/
theorem spec_C5 :
    (∀ (options : Fields) (d k : String) (v : Value) (ctx1 : Context),
      parseOptions options d { values := [], currentKey := some k, logs := [] } =
        some (Except.ok (ParseResult.success v), ctx1) →
      parseContext (.untagged none (some d) options)
        { values := [], currentKey := some k, logs := [] } =
        (Except.ok (ParseResult.success v), ctx1))
    ∧ (∀ (options : Fields) (k : String),
      parseContext (.untagged none none options)
        { values := [], currentKey := some k, logs := [] } =
        (Except.ok ParseResult.missing,
         { values := [], currentKey := some k,
           logs := [LogLine.error
             (k ++ "=undefined ERROR: missing environment variable")] })) := by
  constructor
  · intro options d k v ctx1 h
    rw [parseContext]
    simp [lookupState, untaggedFinish, h]
  · intro options k
    rw [parseContext]
    simp [lookupState, logMissingVariable, logError]

/-- Witness for C5: a union whose default variant dummy is an empty object
parser resolves an empty snapshot to the empty object. -/
theorem spec_C5_witness :
    parseContext
      (.untagged none (some "dummy") (Fields.cons "dummy" (.objectNode .nil) .nil))
      { values := [], currentKey := some "DATA_SOURCE", logs := [] } =
      (Except.ok (ParseResult.success (Value.obj [])),
       { values := [], currentKey := some "DATA_SOURCE", logs := [] }) :=
  spec_C5.1 (Fields.cons "dummy" (.objectNode .nil) .nil) "dummy" "DATA_SOURCE"
    (Value.obj []) _ rfl

/-- Claim C6: `safeParse` never throws for a domain failure — whatever
result the resolution produces is handed back as a Result value — and the
only outcome that still propagates as a throw is a non-Error value raised
by a user conversion or map callback. -/
theorem spec_C6 (fields : Fields) (input : List (String × String)) :
    ((∃ r, (safeParse fields input).1 = SafeOutcome.returned r) ∨
      (safeParse fields input).1 = SafeOutcome.thrownNonError)
    ∧ (∀ (r : ParseResult) (ctx1 : Context),
        parseContext (.objectNode fields)
          { values := mkValues input, currentKey := none, logs := [] } =
          (Except.ok r, ctx1) →
        (safeParse fields input).1 = SafeOutcome.returned r) := by
  rcases hp : parseContext (Node.objectNode fields)
      { values := mkValues input, currentKey := none, logs := [] } with ⟨res, ctx1⟩
  rcases res with t | r
  · rcases t with m | _
    · have h := noErr_parseContext (Node.objectNode fields)
        { values := mkValues input, currentKey := none, logs := [] }
        (Or.inr ⟨fields, rfl⟩) m
      rw [hp] at h
      simp at h
    · refine ⟨Or.inr ?_, ?_⟩
      · simp [safeParse, hp]
      · intro r2 ctx2 h2
        simp at h2
  · refine ⟨Or.inl ⟨r, ?_⟩, ?_⟩
    · simp [safeParse, hp]
    · intro r2 ctx2 h2
      have hr : r = r2 := by
        simpa using congrArg Prod.fst h2
      subst hr
      simp [safeParse, hp]

/-- Witness for C6: a schema with one required field and an empty snapshot
makes `safeParse` return the aggregate failure instead of throwing. -/
theorem spec_C6_witness :
    (safeParse (Fields.cons "FOO" (Node.leaf none false none stringConv)
      Fields.nil) []).1 =
      SafeOutcome.returned
        (ParseResult.error "Unable to fill the following fields: FOO") :=
  (spec_C6 (Fields.cons "FOO" (Node.leaf none false none stringConv)
    Fields.nil) []).2
    (ParseResult.error "Unable to fill the following fields: FOO") _ rfl

/-- Any key reported unused matches one of the configured prefixes. -/
theorem unusedKeys_matchPrefixes (prefixes : List String)
    (values : List (String × State)) (k : String)
    (hk : k ∈ unusedKeys prefixes values) :
    prefixes.any (fun p => jsStartsWith p k) = true := by
  rw [unusedKeys] at hk
  simp only [List.mem_map, List.mem_filter] at hk
  obtain ⟨kv, ⟨_, hcond⟩, hfst⟩ := hk
  rw [Bool.and_eq_true] at hcond
  rw [← hfst]
  exact hcond.2

/-- Claim C7: with assumed prefix APP_ and reject-unused mode, the snapshot
APP_FOO=used, APP_BAR=typo against a schema declaring only APP_FOO fails
overall with the unused key APP_BAR named, even though plain `parse`
succeeds on the same input; and any key reported unused matches one of the
configured prefixes, so a key like HOME with no matching prefix is never
reported. -/
theorem spec_C7 :
    parseRejectUnused
      (Fields.cons "APP_FOO" (Node.leaf none false none stringConv) Fields.nil)
      ["APP_"] [("APP_FOO", "used"), ("APP_BAR", "typo")] =
      ParseOutcome.thrownError "Unused variables: APP_BAR"
    ∧ (parse
        (Fields.cons "APP_FOO" (Node.leaf none false none stringConv) Fields.nil)
        [("APP_FOO", "used"), ("APP_BAR", "typo")]).1 =
      ParseOutcome.value (Value.obj [("APP_FOO", Value.str "used")])
    ∧ (∀ (prefixes : List String) (values : List (String × State)) (k : String),
        k ∈ unusedKeys prefixes values →
        prefixes.any (fun p => jsStartsWith p k) = true)
    ∧ (∀ (values : List (String × State)),
        "HOME" ∉ unusedKeys ["APP_"] values) := by
  refine ⟨rfl, rfl, unusedKeys_matchPrefixes, ?_⟩
  intro values hmem
  have h := unusedKeys_matchPrefixes ["APP_"] values "HOME" hmem
  simp [jsStartsWith, List.isPrefixOf] at h

/-- Witness for C7: APP_BAR is in the reported unused keys of the concrete
snapshot, and the prefix check on it indeed holds. -/
theorem spec_C7_witness :
    (["APP_"].any fun p => jsStartsWith p "APP_BAR") = true :=
  spec_C7.2.2.1 ["APP_"]
    [("APP_FOO", { value := "used", used := true }),
     ("APP_BAR", { value := "typo", used := false })] "APP_BAR" (by decide)

/-- Claim C8: the boolean conversion maps, case-insensitively, true/yes/on/1
to true and false/no/off/0 to false (shown on the claimed concrete inputs
and in general on the folded form), and every other input fails with the
conversion error "invalid boolean". -/
theorem spec_C8 :
    booleanConv "true" = ConvResult.ok (Value.boolean true)
    ∧ booleanConv "TRUE" = ConvResult.ok (Value.boolean true)
    ∧ booleanConv "yes" = ConvResult.ok (Value.boolean true)
    ∧ booleanConv "On" = ConvResult.ok (Value.boolean true)
    ∧ booleanConv "1" = ConvResult.ok (Value.boolean true)
    ∧ booleanConv "false" = ConvResult.ok (Value.boolean false)
    ∧ booleanConv "No" = ConvResult.ok (Value.boolean false)
    ∧ booleanConv "OFF" = ConvResult.ok (Value.boolean false)
    ∧ booleanConv "0" = ConvResult.ok (Value.boolean false)
    ∧ booleanConv "maybe" = ConvResult.fail "invalid boolean"
    ∧ (∀ s, ["true", "yes", "on", "1"].contains (jsToLower s) = true →
        booleanConv s = ConvResult.ok (Value.boolean true))
    ∧ (∀ s, ["false", "no", "off", "0"].contains (jsToLower s) = true →
        booleanConv s = ConvResult.ok (Value.boolean false))
    ∧ (∀ s, ["true", "yes", "on", "1"].contains (jsToLower s) = false →
        ["false", "no", "off", "0"].contains (jsToLower s) = false →
        booleanConv s = ConvResult.fail "invalid boolean") := by
  refine ⟨rfl, rfl, rfl, rfl, rfl, rfl, rfl, rfl, rfl, rfl, ?_, ?_, ?_⟩
  · intro v h
    rw [booleanConv, if_pos h]
  · intro v h
    have hne : (["true", "yes", "on", "1"].contains (jsToLower v)) = false := by
      simp at h ⊢
      rcases h with h | h | h | h <;> simp [h]
    rw [booleanConv, if_neg (by rw [hne]; simp), if_pos h]
  · intro v h1 h2
    rw [booleanConv, if_neg (by rw [h1]; simp), if_neg (by rw [h2]; simp)]

/-- Witness for C8's general clauses at the concrete input "MaYbE". -/
theorem spec_C8_witness :
    booleanConv "MaYbE" = ConvResult.fail "invalid boolean" :=
  spec_C8.2.2.2.2.2.2.2.2.2.2.2.2 "MaYbE" (by decide) (by decide)

/-- Claim C9: resolution is a pure function of the tree and the snapshot
(equal snapshots give identical outcomes and log transcripts), the only
state a parse call mutates is the per-key used flags of its own context
(keys and raw values are preserved), every node only appends to the log,
and within an object node the head field's log lines are emitted before
those of the remaining siblings, in declared order. -/
theorem spec_C9 :
    (∀ (fields : Fields) (input1 input2 : List (String × String)),
      input1 = input2 → parse fields input1 = parse fields input2)
    ∧ (∀ (n : Node) (ctx : Context),
      valuesShape (parseContext n ctx).2.values = valuesShape ctx.values)
    ∧ (∀ (n : Node) (ctx : Context),
      ∃ t, (parseContext n ctx).2.logs = ctx.logs ++ t)
    ∧ (∀ (key : String) (node : Node) (rest : Fields) (ctx : Context),
      ∃ t, (runFields (Fields.cons key node rest) ctx).2.logs =
        (parseContext node { ctx with currentKey := some key }).2.logs ++ t) := by
  refine ⟨?_, shape_parseContext, logs_parseContext, ?_⟩
  · intro fields input1 input2 h
    rw [h]
  · intro key node rest ctx
    rw [runFields]
    rcases hp : parseContext node { ctx with currentKey := some key } with ⟨r, ctx1⟩
    rcases r with t | r
    · exact ⟨[], by simp⟩
    · simp only
      obtain ⟨t2, h2⟩ := logs_runFields rest { ctx1 with currentKey := ctx.currentKey }
      rcases hr : runFields rest { ctx1 with currentKey := ctx.currentKey } with ⟨res2, ctx2⟩
      rw [hr] at h2
      rcases res2 with t | results <;> exact ⟨t2, by simpa using h2⟩

/-- Witness for C9's determinism clause at a concrete schema and snapshot. -/
theorem spec_C9_witness :
    parse (Fields.cons "A" (Node.leaf none false none stringConv) Fields.nil)
      [("A", "x")] =
    parse (Fields.cons "A" (Node.leaf none false none stringConv) Fields.nil)
      [("A", "x")] :=
  spec_C9.1 (Fields.cons "A" (Node.leaf none false none stringConv) Fields.nil)
    [("A", "x")] [("A", "x")] rfl

end EvpTs
